import Mathlib

/-!
Verification of the leadfoot Command chaining / element-context engine.

The repository ships only TypeScript declaration files: every algorithm
(the Command settlement engine, element-context propagation, `end`,
cancellation, the `pollUntil` helper) is declared and documented but not
implemented under `src/`.  The executable behaviour is therefore modelled
here from the specification's words (each such definition carries a doc
comment starting "Modelled from the spec:"), and the stated properties are
proved against that model.
-/

namespace Leadfoot

/-- Modelled from the spec: an opaque remote element handle
(`Element`, identified by a remote-provided id scoped to its session);
the implementation class is absent from `src/`, only its declaration. -/
structure Element where
  elementId : Nat
deriving DecidableEq

/-- Modelled from the spec: `ElementContext` / `Command.Context` — the ordered
sequence of remote element handles in scope, with `isSingle` (produced by a
singular find) and `depth` (filtering nesting level) metadata; the
implementation is absent from `src/`, only the `Command.Context` interface
declaration. -/
structure Context where
  elements : List Element
  isSingle : Bool
  depth : Nat
deriving DecidableEq

/-- Modelled from the spec: the root whole-document context — empty, not
single, depth zero. -/
def defaultContext : Context := ⟨[], false, 0⟩

/-- Modelled from the spec: the error taxonomy of §7 — remote failure,
no-context failure, cancellation failure, timeout failure. -/
inductive FailureKind where
  | remote
  | noContext
  | cancellation
  | timeout
deriving DecidableEq

/-- Modelled from the spec: a typed failure with a machine-readable kind and
a human message. -/
structure Failure where
  kind : FailureKind
  message : String
deriving DecidableEq

/-- Modelled from the spec: the failure raised when an element operation is
invoked with an empty element context. -/
def noContextFailure : Failure :=
  ⟨FailureKind.noContext, "Cannot execute element operation with an empty context"⟩

/-- Modelled from the spec: the timeout-kind failure raised when a bounded
wait (the polling helper) exceeds its allotted time. -/
def timeoutFailure : Failure := ⟨FailureKind.timeout, "Polling timed out"⟩

/-- Modelled from the spec: the argument accepted by a `setContext` call —
either a single Element or an array of Elements. -/
inductive ContextArg where
  | one (e : Element)
  | many (es : List Element)
deriving DecidableEq

/-- Modelled from the spec: the context created when `setContext` is called —
a single element yields `single = true` with exactly that handle, an array
yields `single = false`; a filtering operation increments depth by one over
the parent context's depth. -/
def mkContext (parentDepth : Nat) : ContextArg → Context
  | ContextArg.one e => ⟨[e], true, parentDepth + 1⟩
  | ContextArg.many es => ⟨es, false, parentDepth + 1⟩

/-- Modelled from the spec: the observable behaviour of one run of a
user-supplied initialiser or errback — the ordered list of `setContext`
calls it makes before its returned value settles, and the outcome (a value
or a failure). -/
structure CallbackRun (β : Type) where
  contextCalls : List ContextArg
  outcome : Except Failure β

/-- Modelled from the spec: a node settlement — a value plus settled
context, or a failure carried together with the nearest trustworthy
ancestor context (the erroring node's own context is not trustworthy). -/
inductive Settlement (β : Type) where
  | ok (v : β) (ctx : Context)
  | err (e : Failure) (ctx : Context)

/-- Modelled from the spec: the context a node settles with — the LAST
`setContext` call before settlement wins; if `setContext` was never called
the inherited context is used verbatim. -/
def finalContext (inherited : Context) (calls : List ContextArg) : Context :=
  match calls.getLast? with
  | none => inherited
  | some a => mkContext inherited.depth a

/-- Modelled from the spec: the settlement algorithm of §4.1 for one chain
node (the `Command` constructor's behaviour, absent from `src/`): await the
parent settlement; on parent success invoke the initialiser; on parent
failure invoke the errback if provided, otherwise propagate the failure
with the initialiser never invoked; a successful callback settles the node
with its outcome and with `finalContext` applied to its `setContext`
calls. -/
def settleChild (parent : Settlement α)
    (initialiser : α → Context → CallbackRun β)
    (errback : Option (Failure → Context → CallbackRun β)) : Settlement β :=
  match parent with
  | Settlement.ok v ctx =>
    let run := initialiser v ctx
    match run.outcome with
    | Except.ok u => Settlement.ok u (finalContext ctx run.contextCalls)
    | Except.error e => Settlement.err e ctx
  | Settlement.err e ctx =>
    match errback with
    | none => Settlement.err e ctx
    | some eb =>
      let run := eb e ctx
      match run.outcome with
      | Except.ok u => Settlement.ok u (finalContext ctx run.contextCalls)
      | Except.error e2 => Settlement.err e2 ctx

/-- Modelled from the spec: the poll loop of the `pollUntil` helper (only a
declaration exists in `src/`): invoke the poller; a non-empty value resolves
the chain, a raised error fails it immediately with no further retries, the
empty value retries after the poll interval until the invocation budget
derived from the overall timeout is exhausted, which yields the
timeout-kind failure. -/
def pollLoopAux (poller : Nat → Except Failure (Option α)) :
    Nat → Nat → Except Failure α
  | _, 0 => Except.error timeoutFailure
  | k, fuel + 1 =>
    match poller k with
    | Except.error e => Except.error e
    | Except.ok (some v) => Except.ok v
    | Except.ok none => pollLoopAux poller (k + 1) fuel

/-- Modelled from the spec: the poll interval defaults to 67 ms when not
supplied (the declaration's documentation states the constant). -/
def resolveInterval (pollInterval : Option Nat) : Nat := pollInterval.getD 67

/-- Modelled from the spec: the overall timeout defaults to the session's
current asynchronous-execution (`executeAsync`) timeout when not
supplied. -/
def resolveTimeout (timeout : Option Nat) (sessionExecuteAsyncTimeout : Nat) : Nat :=
  timeout.getD sessionExecuteAsyncTimeout

/-- Modelled from the spec: the number of poller invocations that fit in the
overall timeout when polling at a fixed interval, the first invocation
occurring immediately. -/
def numPolls (timeout interval : Nat) : Nat := timeout / interval + 1

/-- Modelled from the spec: the poller is invoked at a fixed interval, so
invocation `k` starts at time `k * interval` milliseconds. -/
def pollStartTime (interval k : Nat) : Nat := k * interval

/-- Modelled from the spec: the `pollUntil` helper, whose implementation is
absent from `src/` (only its overloaded declaration): resolve the optional
timeout and poll-interval arguments to their defaults and run the poll
loop. -/
def pollUntil (poller : Nat → Except Failure (Option α))
    (timeout pollInterval : Option Nat)
    (sessionExecuteAsyncTimeout : Nat) : Except Failure α :=
  pollLoopAux poller 0
    (numPolls (resolveTimeout timeout sessionExecuteAsyncTimeout)
      (resolveInterval pollInterval))

/-- Modelled from the spec: the shape of an element operation's resolved
value — a scalar when the context is single, a sequence of per-element
results otherwise. -/
inductive ElemResult (β : Type) where
  | scalar (b : β)
  | seq (bs : List β)
deriving DecidableEq

/-- Modelled from the spec: the per-element remote calls of a fan-out
element operation, tagged with their context index, listed in the order the
calls complete (an arbitrary permutation of the context indices). -/
def completionList (f : Element → β) (es : List Element) (d : Element)
    (order : List Nat) : List (Nat × β) :=
  order.map fun i => (i, f (es.getD i d))

/-- Modelled from the spec: the collector that reassembles per-element
results in context order regardless of the order in which the remote calls
completed. -/
def gatherResults (n : Nat) (completions : List (Nat × β)) : List β :=
  (List.range n).filterMap fun i => completions.lookup i

/-- Modelled from the spec: dispatch of an element operation (the
`addElementMethod` forwarding logic, absent from `src/`): an empty context
fails with the no-context failure; a `single` context executes the
operation once against the sole element and resolves to that scalar result;
a multiple context executes once per element concurrently (the remote calls
completing in the arbitrary order given) and resolves to the sequence of
per-element results in context order. -/
def runElementOp (f : Element → β) (ctx : Context) (order : List Nat) :
    Except Failure (ElemResult β) :=
  match ctx.elements with
  | [] => Except.error noContextFailure
  | e :: rest =>
    if ctx.isSingle then Except.ok (ElemResult.scalar (f e))
    else
      Except.ok (ElemResult.seq
        (gatherResults (e :: rest).length (completionList f (e :: rest) e order)))

/-- Modelled from the spec: the search scoping rule of `find`/`findAll`
(implementation absent from `src/`): on an empty (default, whole-document)
context the search runs against the whole document; on a non-empty context
it runs within each element of the context and the per-element result lists
are flattened in context order.  The remote search collaborator is the
opaque function `search`, taking `none` for the document root or `some e`
for a search scoped within element `e`. -/
def scopedSearch (search : Option Element → List Element) (ctx : Context) :
    List Element :=
  match ctx.elements with
  | [] => search none
  | e :: rest => ((e :: rest).map fun x => search (some x)).flatten

/-- Modelled from the spec: the remote failure reported when a singular find
matches no element. -/
def noSuchElementFailure : Failure := ⟨FailureKind.remote, "NoSuchElement"⟩

/-- Modelled from the spec: a singular `find` — takes the first element of
the scoped search results, failing when there is none, and produces a
context with `single = true`, exactly that one handle, and depth one more
than the parent context's depth. -/
def findCmd (search : Option Element → List Element) (ctx : Context) :
    Except Failure Context :=
  match scopedSearch search ctx with
  | [] => Except.error noSuchElementFailure
  | e :: _ => Except.ok ⟨[e], true, ctx.depth + 1⟩

/-- Modelled from the spec: `findAll` — produces a context holding all the
scoped search results with `single = false`, regardless of how many were
found, at depth one more than the parent context's depth. -/
def findAllCmd (search : Option Element → List Element) (ctx : Context) :
    Context :=
  ⟨scopedSearch search ctx, false, ctx.depth + 1⟩

/-- Modelled from the spec: `getActiveElement` is a singular find — its
context holds exactly the active element with `single = true` at depth one
more than the parent context's depth. -/
def getActiveElementCtx (active : Element) (ctx : Context) : Context :=
  ⟨[active], true, ctx.depth + 1⟩

/-- Modelled from the spec: the context invariant — a context with
`single = true` always has exactly one handle. -/
def ContextWF (c : Context) : Prop := c.isSingle = true → c.elements.length = 1

/-- Modelled from the spec: the contexts reachable in a command chain —
the root whole-document context, contexts installed by `setContext`, and
contexts produced by `find`, `findAll` and `getActiveElement`. -/
inductive ReachableCtx (search : Option Element → List Element)
    (active : Element) : Context → Prop where
  | root : ReachableCtx search active defaultContext
  | set (c : Context) (a : ContextArg) (h : ReachableCtx search active c) :
      ReachableCtx search active (mkContext c.depth a)
  | find (c c2 : Context) (h : ReachableCtx search active c)
      (hf : findCmd search c = Except.ok c2) : ReachableCtx search active c2
  | findAll (c : Context) (h : ReachableCtx search active c) :
      ReachableCtx search active (findAllCmd search c)
  | activeElem (c : Context) (h : ReachableCtx search active c) :
      ReachableCtx search active (getActiveElementCtx active c)

/-- Modelled from the spec: the parent-link structure of a command chain —
a root node bound to a session (whole-document context) or a node with a
parent link and its own settled context.  The implementation's `Command`
class, absent from `src/`, declares exactly these `parent` and `context`
members. -/
inductive Chain where
  | root (ctx : Context)
  | node (parent : Chain) (ctx : Context)

/-- The settled context of a chain node. -/
def Chain.context : Chain → Context
  | Chain.root c => c
  | Chain.node _ c => c

/-- The context of a chain's root node (the whole-document context). -/
def Chain.rootContext : Chain → Context
  | Chain.root c => c
  | Chain.node p _ => p.rootContext

/-- The number of non-root links above a chain node. -/
def Chain.height : Chain → Nat
  | Chain.root _ => 0
  | Chain.node p _ => p.height + 1

/-- Modelled from the spec: the ancestor walk performed by `end` (the
implementation is absent from `src/`): ascend the parent links, counting a
context-depth level each time the parent's context depth drops below the
depth reached so far (plain links that did not change context are not
counted), until `n` levels have been popped; on reaching the root with
pops remaining, clamp to the root whole-document context. -/
def endWalk : Chain → Nat → Nat → Context
  | ch, 0, _ => ch.context
  | Chain.root c, _ + 1, _ => c
  | Chain.node p _, n + 1, d =>
    if p.context.depth < d then endWalk p n p.context.depth
    else endWalk p (n + 1) d

/-- Modelled from the spec: the context produced by `end n` called on a
chain node — the ancestor context found by walking up `n` context-depth
levels, clamped to the root context. -/
def Chain.endCtx (ch : Chain) (n : Nat) : Context :=
  endWalk ch n ch.context.depth

/-- Modelled from the spec: `end n` creates a child node whose only effect
is the popped context (its value is void, modelled as carrying no value). -/
def Chain.endCmd (ch : Chain) (n : Nat) : Chain :=
  Chain.node ch (ch.endCtx n)

/-- Modelled from the spec: the execution phase of one chain node under the
cooperative scheduler — not yet started, running its initialiser, or
settled. -/
inductive NodePhase where
  | pending
  | running
  | settled
deriving DecidableEq

/-- Modelled from the spec: the observable scheduler events — a node
starting to execute and a node settling. -/
inductive Event where
  | start (i : Nat)
  | finish (i : Nat)
deriving DecidableEq

/-- Modelled from the spec: the phase update caused by one scheduler
event. -/
def applyEvent (st : Nat → NodePhase) : Event → Nat → NodePhase
  | Event.start i, j => if j = i then NodePhase.running else st j
  | Event.finish i, j => if j = i then NodePhase.settled else st j

/-- Modelled from the spec: whether a node's parent settlement has been
observed (a root node has no parent and is always ready). -/
def parentSettled (parent : Nat → Option Nat) (st : Nat → NodePhase)
    (i : Nat) : Bool :=
  match parent i with
  | none => true
  | some p => st p == NodePhase.settled

/-- Modelled from the spec: the scheduling rule — a node may start only
when it is pending and its parent's settlement has been observed; it may
settle only while running.  Sibling branches impose no ordering on each
other. -/
def eventOk (parent : Nat → Option Nat) (st : Nat → NodePhase) :
    Event → Bool
  | Event.start i => (st i == NodePhase.pending) && parentSettled parent st i
  | Event.finish i => st i == NodePhase.running

/-- Modelled from the spec: the traces the cooperative scheduler can
produce — every event legal in the state reached by the events before
it. -/
def validTrace (parent : Nat → Option Nat) (st : Nat → NodePhase) :
    List Event → Bool
  | [] => true
  | e :: tr => eventOk parent st e && validTrace parent (applyEvent st e) tr

/-- Modelled from the spec: initially every node is pending. -/
def initPhase : Nat → NodePhase := fun _ => NodePhase.pending

/-- Modelled from the spec: the parent links of the linear chain
`a.then(b).then(c)` with `a = 0`, `b = 1`, `c = 2`. -/
def linearChainParent : Nat → Option Nat
  | 0 => none
  | i + 1 => some i

/-- Modelled from the spec: the settlement state of a node as seen by
`cancel` — pending, settled with a value, or failed with a failure kind. -/
inductive CState (β : Type) where
  | pending
  | value (v : β)
  | failed (k : FailureKind)
deriving DecidableEq

/-- Modelled from the spec: one chain node as seen by `cancel` — its parent
link (an index into the node table, or none for a root) and its settlement
state. -/
structure CNode (β : Type) where
  parent : Option Nat
  state : CState β
deriving DecidableEq

/-- Modelled from the spec: walking the parent links upward from node `j`
with bounded fuel, testing whether node `i` is reached (so `j` is `i`
itself or a descendant of `i`). -/
def upMem (ps : List (Option Nat)) : Nat → Nat → Nat → Bool
  | 0, _, _ => false
  | fuel + 1, i, j =>
    i == j ||
      match ps.getD j none with
      | none => false
      | some p => upMem ps fuel i p

/-- Modelled from the spec: whether node `j` lies in the subtree rooted at
node `i` (is `i` itself or one of its descendants). -/
def isInSubtree (ps : List (Option Nat)) (i j : Nat) : Bool :=
  upMem ps (ps.length + 1) i j

/-- Modelled from the spec: what cancellation does to one node's state — a
not-yet-settled node fails with the cancellation-kind failure, an
already-settled node keeps its settled state. -/
def cancelState : CState β → CState β
  | CState.pending => CState.failed FailureKind.cancellation
  | CState.value v => CState.value v
  | CState.failed k => CState.failed k

/-- Modelled from the spec: the traversal of the node table by `cancel`,
applying `cancelState` to the cancelled node and its descendants and
leaving every other node untouched; `j` is the index of the first node of
the list being processed. -/
def cancelList (ps : List (Option Nat)) (i : Nat) :
    Nat → List (CNode β) → List (CNode β)
  | _, [] => []
  | j, nd :: rest =>
    (if isInSubtree ps i j then { nd with state := cancelState nd.state }
     else nd) :: cancelList ps i (j + 1) rest

/-- Modelled from the spec: `cancel()` on node `i` — marks `i` and all of
its not-yet-settled descendants as failed with a cancellation-kind failure,
leaving already-settled nodes and sibling branches unaffected. -/
def cancelCmd (w : List (CNode β)) (i : Nat) : List (CNode β) :=
  cancelList (w.map CNode.parent) i 0 w

theorem lookup_of_mem {β : Type} (l : List (Nat × β)) (i : Nat) (v : β)
    (hmem : (i, v) ∈ l) (hnd : (l.map Prod.fst).Nodup) : l.lookup i = some v := by
  induction l with
  | nil => simp at hmem
  | cons hd tl ih =>
    obtain ⟨k, w⟩ := hd
    simp only [List.map_cons, List.nodup_cons] at hnd
    by_cases hik : i = k
    · subst hik
      rcases List.mem_cons.mp hmem with h | h
      · cases h
        simp [List.lookup]
      · exact absurd (List.mem_map_of_mem Prod.fst h) hnd.1
    · rcases List.mem_cons.mp hmem with h | h
      · cases h
        exact absurd rfl hik
      · have hl : List.lookup i ((k, w) :: tl) = List.lookup i tl := by
          simp [List.lookup, beq_eq_false_iff_ne.mpr hik]
        rw [hl]
        exact ih h hnd.2

theorem map_getD_range {α : Type} (es : List α) (d : α) :
    (List.range es.length).map (fun i => es.getD i d) = es := by
  induction es with
  | nil => simp
  | cons a tl ih =>
    rw [List.length_cons, List.range_succ_eq_map, List.map_cons, List.map_map]
    refine congrArg (a :: ·) ?_
    calc (List.range tl.length).map ((fun i => (a :: tl).getD i d) ∘ Nat.succ)
        = (List.range tl.length).map (fun i => tl.getD i d) := rfl
      _ = tl := ih

theorem filterMap_eq_map_of_some {α β : Type} (p : α → Option β) (g : α → β)
    (l : List α) (h : ∀ a ∈ l, p a = some (g a)) : l.filterMap p = l.map g := by
  induction l with
  | nil => rfl
  | cons a tl ih =>
    rw [List.filterMap_cons, h a (List.mem_cons_self a tl), List.map_cons,
      ih fun b hb => h b (List.mem_cons_of_mem a hb)]

/-- Reassembling the per-element completions of a fan-out operation by
context index recovers the results in context order, for every completion
order that is a permutation of the context indices. -/
theorem gather_perm {β : Type} (f : Element → β) (es : List Element)
    (d : Element) (order : List Nat) (hperm : order.Perm (List.range es.length)) :
    gatherResults es.length (completionList f es d order) = es.map f := by
  have hnd : order.Nodup := hperm.nodup_iff.mpr (List.nodup_range _)
  have hkeys : (completionList f es d order).map Prod.fst = order := by
    simp [completionList, List.map_map, Function.comp_def]
  have hlook : ∀ i ∈ List.range es.length,
      (completionList f es d order).lookup i = some (f (es.getD i d)) := by
    intro i hi
    refine lookup_of_mem _ _ _ ?_ (by rw [hkeys]; exact hnd)
    exact List.mem_map_of_mem _ (hperm.mem_iff.mpr hi)
  calc gatherResults es.length (completionList f es d order)
      = (List.range es.length).map (fun i => f (es.getD i d)) :=
        filterMap_eq_map_of_some _ _ _ hlook
    _ = ((List.range es.length).map (fun i => es.getD i d)).map f := by
        rw [List.map_map]
        rfl
    _ = es.map f := by rw [map_getD_range]

/-- C1: an element operation on an empty context fails with the no-context
failure; on a `single = true` context holding one element it executes once
and resolves to that scalar result, not wrapped in a sequence; on a
`single = false` context with `n` elements it executes once per element and
resolves to the sequence of the `n` per-element results in context order,
for every order in which the underlying remote calls complete. -/
theorem elementOp_context_dispatch {β : Type} (f : Element → β)
    (ctx : Context) (order : List Nat) :
    (ctx.elements = [] →
      runElementOp f ctx order = Except.error noContextFailure)
    ∧ (∀ e, ctx.isSingle = true → ctx.elements = [e] →
      runElementOp f ctx order = Except.ok (ElemResult.scalar (f e)))
    ∧ (ctx.isSingle = false → ctx.elements ≠ [] →
      order.Perm (List.range ctx.elements.length) →
      runElementOp f ctx order = Except.ok (ElemResult.seq (ctx.elements.map f))) := by
  refine ⟨?_, ?_, ?_⟩
  · intro h
    simp [runElementOp, h]
  · intro e hs he
    simp [runElementOp, he, hs]
  · intro hs hne hperm
    match hctx : ctx.elements with
    | [] => exact absurd hctx hne
    | e :: rest =>
      rw [hctx] at hperm
      simp only [runElementOp, hctx, hs, Bool.false_eq_true, if_false]
      rw [gather_perm f (e :: rest) e order hperm]

/-- Witness for C1: on the empty context the operation fails; on a single
context holding element 5 it resolves to the scalar 5; on a three-element
context it resolves to the sequence of the three results in context order
even when the remote calls complete in the order 2, 0, 1. -/
theorem elementOp_context_dispatch_witness :
    runElementOp Element.elementId ⟨[], false, 0⟩ [] =
      Except.error noContextFailure
    ∧ runElementOp Element.elementId ⟨[⟨5⟩], true, 1⟩ [0] =
      Except.ok (ElemResult.scalar 5)
    ∧ runElementOp Element.elementId ⟨[⟨10⟩, ⟨11⟩, ⟨12⟩], false, 1⟩ [2, 0, 1] =
      Except.ok (ElemResult.seq [10, 11, 12]) :=
  ⟨(elementOp_context_dispatch Element.elementId ⟨[], false, 0⟩ []).1 rfl,
   (elementOp_context_dispatch Element.elementId ⟨[⟨5⟩], true, 1⟩ [0]).2.1 ⟨5⟩ rfl rfl,
   (elementOp_context_dispatch Element.elementId ⟨[⟨10⟩, ⟨11⟩, ⟨12⟩], false, 1⟩
      [2, 0, 1]).2.2 rfl (by decide) (by decide)⟩

/-- In any valid scheduler trace, a node with a parent can only start after
an event settling that parent has occurred, provided the parent was not
already settled at the start of the trace. -/
theorem start_needs_parent_finish (parent : Nat → Option Nat) (i j : Nat)
    (hp : parent i = some j) :
    ∀ (tr1 tr2 : List Event) (st0 : Nat → NodePhase),
      st0 j ≠ NodePhase.settled →
      validTrace parent st0 (tr1 ++ Event.start i :: tr2) = true →
      Event.finish j ∈ tr1 := by
  intro tr1
  induction tr1 with
  | nil =>
    intro tr2 st0 hst hv
    rw [List.nil_append] at hv
    simp only [validTrace, Bool.and_eq_true] at hv
    have hok := hv.1
    simp only [eventOk, Bool.and_eq_true, beq_iff_eq] at hok
    have hps := hok.2
    rw [parentSettled, hp] at hps
    exact absurd (beq_iff_eq.mp hps) hst
  | cons e tl ih =>
    intro tr2 st0 hst hv
    rw [List.cons_append] at hv
    simp only [validTrace, Bool.and_eq_true] at hv
    by_cases he : e = Event.finish j
    · rw [he]
      exact List.mem_cons_self _ _
    · refine List.mem_cons_of_mem _ (ih tr2 (applyEvent st0 e) ?_ hv.2)
      cases e with
      | start k =>
        simp only [applyEvent]
        by_cases hjk : j = k
        · simp [hjk]
        · simpa [hjk] using hst
      | finish k =>
        have hk : ¬j = k := fun h => he (congrArg Event.finish h.symm ▸ rfl)
        simpa [applyEvent, hk] using hst

/-- C2: in the linear chain `a.then(b).then(c)` (nodes 0, 1, 2), execution
is strictly sequential — in every trace the cooperative scheduler can
produce, `b` starts only after an event settling `a` has occurred, and `c`
only after an event settling `b`. -/
theorem linear_chain_sequential (tr : List Event)
    (hv : validTrace linearChainParent initPhase tr = true) :
    (∀ tr1 tr2, tr = tr1 ++ Event.start 1 :: tr2 → Event.finish 0 ∈ tr1)
    ∧ (∀ tr1 tr2, tr = tr1 ++ Event.start 2 :: tr2 → Event.finish 1 ∈ tr1) := by
  constructor
  · intro tr1 tr2 htr
    exact start_needs_parent_finish linearChainParent 1 0 rfl tr1 tr2 initPhase
      (by simp [initPhase]) (htr ▸ hv)
  · intro tr1 tr2 htr
    exact start_needs_parent_finish linearChainParent 2 1 rfl tr1 tr2 initPhase
      (by simp [initPhase]) (htr ▸ hv)

/-- Witness for C2: in the concrete valid trace that runs the three nodes
to completion, the settlement of node 0 precedes the start of node 1 and
the settlement of node 1 precedes the start of node 2. -/
theorem linear_chain_sequential_witness :
    Event.finish 0 ∈ [Event.start 0, Event.finish 0]
    ∧ Event.finish 1 ∈
      [Event.start 0, Event.finish 0, Event.start 1, Event.finish 1] := by
  have h := linear_chain_sequential
    [Event.start 0, Event.finish 0, Event.start 1, Event.finish 1,
      Event.start 2, Event.finish 2] (by decide)
  exact ⟨h.1 [Event.start 0, Event.finish 0]
      [Event.finish 1, Event.start 2, Event.finish 2] rfl,
    h.2 [Event.start 0, Event.finish 0, Event.start 1, Event.finish 1]
      [Event.finish 2] rfl⟩

/-- C3: when the parent settled with a failure, a node without an errback
settles with the parent's failure unchanged whatever its initialiser is
(the initialiser is never invoked); a node whose errback returns
successfully settles successfully, and every downstream node observes it
exactly as it would observe a plain success settlement (the chain is
healed). -/
theorem errback_skip_and_heal {α β γ : Type} (e : Failure) (ctx : Context)
    (initialiser : α → Context → CallbackRun β)
    (eb : Failure → Context → CallbackRun β) (u : β)
    (hok : (eb e ctx).outcome = Except.ok u) :
    (∀ init2 : α → Context → CallbackRun β,
      settleChild (Settlement.err e ctx) init2 none = Settlement.err e ctx)
    ∧ settleChild (Settlement.err e ctx) initialiser (some eb) =
        Settlement.ok u (finalContext ctx (eb e ctx).contextCalls)
    ∧ (∀ g : β → Context → CallbackRun γ,
        settleChild (settleChild (Settlement.err e ctx) initialiser (some eb))
            g none =
          settleChild
            (Settlement.ok u (finalContext ctx (eb e ctx).contextCalls)) g none) := by
  have h2 : settleChild (Settlement.err e ctx) initialiser (some eb) =
      Settlement.ok u (finalContext ctx (eb e ctx).contextCalls) := by
    simp [settleChild, hok]
  exact ⟨fun init2 => rfl, h2, fun g => by rw [h2]⟩

/-- Witness for C3: with a parent failed with `noSuchElementFailure`, a
node with no errback propagates the failure unchanged, and a node whose
errback returns 42 settles successfully with 42; its downstream pass-through
node also settles with a success. -/
theorem errback_skip_and_heal_witness :
    settleChild (Settlement.err noSuchElementFailure defaultContext)
        (fun (_ : Nat) (_ : Context) => CallbackRun.mk [] (Except.ok (0 : Nat)))
        none =
      Settlement.err noSuchElementFailure defaultContext
    ∧ settleChild (Settlement.err noSuchElementFailure defaultContext)
        (fun (_ : Nat) (_ : Context) => CallbackRun.mk [] (Except.ok (0 : Nat)))
        (some fun _ _ => CallbackRun.mk [] (Except.ok (42 : Nat))) =
      Settlement.ok 42 defaultContext
    ∧ settleChild
        (settleChild (Settlement.err noSuchElementFailure defaultContext)
          (fun (_ : Nat) (_ : Context) => CallbackRun.mk [] (Except.ok (0 : Nat)))
          (some fun _ _ => CallbackRun.mk [] (Except.ok (42 : Nat))))
        (fun (v : Nat) (_ : Context) => CallbackRun.mk [] (Except.ok v)) none =
      settleChild (Settlement.ok (42 : Nat) defaultContext)
        (fun (v : Nat) (_ : Context) => CallbackRun.mk [] (Except.ok v)) none := by
  have h := errback_skip_and_heal (γ := Nat) noSuchElementFailure defaultContext
    (fun (_ : Nat) (_ : Context) => CallbackRun.mk [] (Except.ok (0 : Nat)))
    (fun _ _ => CallbackRun.mk [] (Except.ok (42 : Nat))) 42 rfl
  exact ⟨h.1 _, h.2.1, h.2.2 _⟩

/-- C9: whichever callback runs — the initialiser on the success path or
the errback on the recovery path — if it called `setContext` then the node
settles with the context built from the argument of the LAST call (at depth
one past the inherited context's); if the initialiser never called
`setContext` the parent's settled context is inherited verbatim; if the
errback never called `setContext`, the context carried with the failure
(the nearest trustworthy ancestor context) is inherited. -/
theorem setContext_last_call_wins {α β : Type} (v : α) (ctx : Context)
    (initialiser : α → Context → CallbackRun β)
    (eb : Failure → Context → CallbackRun β) (e : Failure) (u : β) :
    ((initialiser v ctx).outcome = Except.ok u →
      ∀ a, (initialiser v ctx).contextCalls.getLast? = some a →
        settleChild (Settlement.ok v ctx) initialiser none =
          Settlement.ok u (mkContext ctx.depth a))
    ∧ ((initialiser v ctx).outcome = Except.ok u →
      (initialiser v ctx).contextCalls = [] →
        settleChild (Settlement.ok v ctx) initialiser none =
          Settlement.ok u ctx)
    ∧ ((eb e ctx).outcome = Except.ok u →
      (eb e ctx).contextCalls = [] →
        settleChild (Settlement.err e ctx) initialiser (some eb) =
          Settlement.ok u ctx)
    ∧ ((eb e ctx).outcome = Except.ok u →
      ∀ a, (eb e ctx).contextCalls.getLast? = some a →
        settleChild (Settlement.err e ctx) initialiser (some eb) =
          Settlement.ok u (mkContext ctx.depth a)) := by
  refine ⟨?_, ?_, ?_, ?_⟩
  · intro hok a hlast
    simp [settleChild, hok, finalContext, hlast]
  · intro hok hcalls
    simp [settleChild, hok, finalContext, hcalls]
  · intro hok hcalls
    simp [settleChild, hok, finalContext, hcalls]
  · intro hok a hlast
    simp [settleChild, hok, finalContext, hlast]

/-- Witness for C9: an initialiser that calls `setContext` twice settles
with the context of the second call; one that never calls it settles with
the parent's context verbatim; an errback that never calls it settles with
the carried ancestor context; an errback that calls it twice settles with
the context of its second call. -/
theorem setContext_last_call_wins_witness :
    settleChild (Settlement.ok (0 : Nat) defaultContext)
        (fun _ _ => CallbackRun.mk
          [ContextArg.one ⟨1⟩, ContextArg.many [⟨2⟩, ⟨3⟩]] (Except.ok (9 : Nat)))
        none =
      Settlement.ok 9 ⟨[⟨2⟩, ⟨3⟩], false, 1⟩
    ∧ settleChild (Settlement.ok (0 : Nat) ⟨[⟨7⟩], true, 2⟩)
        (fun _ _ => CallbackRun.mk [] (Except.ok (9 : Nat))) none =
      Settlement.ok 9 ⟨[⟨7⟩], true, 2⟩
    ∧ settleChild (Settlement.err noSuchElementFailure ⟨[⟨7⟩], true, 2⟩)
        (fun (_ : Nat) (_ : Context) => CallbackRun.mk [] (Except.ok (0 : Nat)))
        (some fun _ _ => CallbackRun.mk [] (Except.ok (9 : Nat))) =
      Settlement.ok 9 ⟨[⟨7⟩], true, 2⟩
    ∧ settleChild (Settlement.err noSuchElementFailure ⟨[⟨7⟩], true, 2⟩)
        (fun (_ : Nat) (_ : Context) => CallbackRun.mk [] (Except.ok (0 : Nat)))
        (some fun _ _ => CallbackRun.mk
          [ContextArg.many [⟨4⟩, ⟨5⟩], ContextArg.one ⟨6⟩] (Except.ok (9 : Nat))) =
      Settlement.ok 9 ⟨[⟨6⟩], true, 3⟩ := by
  refine ⟨?_, ?_, ?_, ?_⟩
  · exact (setContext_last_call_wins (0 : Nat) defaultContext
      (fun _ _ => CallbackRun.mk
        [ContextArg.one ⟨1⟩, ContextArg.many [⟨2⟩, ⟨3⟩]] (Except.ok (9 : Nat)))
      (fun _ _ => CallbackRun.mk [] (Except.ok 9)) noSuchElementFailure 9).1
      rfl (ContextArg.many [⟨2⟩, ⟨3⟩]) rfl
  · exact (setContext_last_call_wins (0 : Nat) ⟨[⟨7⟩], true, 2⟩
      (fun _ _ => CallbackRun.mk [] (Except.ok (9 : Nat)))
      (fun _ _ => CallbackRun.mk [] (Except.ok 9)) noSuchElementFailure 9).2.1
      rfl rfl
  · exact (setContext_last_call_wins (0 : Nat) ⟨[⟨7⟩], true, 2⟩
      (fun _ _ => CallbackRun.mk [] (Except.ok (0 : Nat)))
      (fun _ _ => CallbackRun.mk [] (Except.ok (9 : Nat))) noSuchElementFailure
      9).2.2.1 rfl rfl
  · exact (setContext_last_call_wins (0 : Nat) ⟨[⟨7⟩], true, 2⟩
      (fun _ _ => CallbackRun.mk [] (Except.ok (0 : Nat)))
      (fun _ _ => CallbackRun.mk
        [ContextArg.many [⟨4⟩, ⟨5⟩], ContextArg.one ⟨6⟩] (Except.ok (9 : Nat)))
      noSuchElementFailure 9).2.2.2 rfl (ContextArg.one ⟨6⟩) rfl

/-- C4: a successful singular `find` yields a context with `single = true`,
exactly one handle and depth one past the parent's; `findAll` yields
`single = false` at depth one past the parent's regardless of how many
elements were found; `getActiveElement` behaves like a singular find; and
the invariant `single = true → exactly one handle` holds for every
reachable context. -/
theorem find_single_context_invariant (search : Option Element → List Element)
    (active : Element) (ctx : Context) :
    (∀ c2, findCmd search ctx = Except.ok c2 →
      c2.isSingle = true ∧ c2.elements.length = 1 ∧ c2.depth = ctx.depth + 1)
    ∧ ((findAllCmd search ctx).isSingle = false
      ∧ (findAllCmd search ctx).depth = ctx.depth + 1)
    ∧ ((getActiveElementCtx active ctx).isSingle = true
      ∧ (getActiveElementCtx active ctx).elements.length = 1
      ∧ (getActiveElementCtx active ctx).depth = ctx.depth + 1)
    ∧ (∀ c, ReachableCtx search active c → ContextWF c) := by
  have hfind : ∀ c0 c2, findCmd search c0 = Except.ok c2 →
      c2.isSingle = true ∧ c2.elements.length = 1 ∧ c2.depth = c0.depth + 1 := by
    intro c0 c2 h
    rw [findCmd] at h
    match hsr : scopedSearch search c0 with
    | [] =>
      rw [hsr] at h
      exact absurd h (by simp)
    | e :: rest =>
      rw [hsr] at h
      cases h
      exact ⟨rfl, rfl, rfl⟩
  refine ⟨hfind ctx, ⟨rfl, rfl⟩, ⟨rfl, rfl, rfl⟩, ?_⟩
  intro c hreach
  induction hreach with
  | root => simp [ContextWF, defaultContext]
  | set c0 a h ih =>
    cases a with
    | one e => simp [ContextWF, mkContext]
    | many es => simp [ContextWF, mkContext]
  | find c0 c2 h hf ih =>
    intro _
    exact (hfind c0 c2 hf).2.1
  | findAll c0 h ih => simp [ContextWF, findAllCmd]
  | activeElem c0 h ih => simp [ContextWF, getActiveElementCtx]

/-- Witness for C4: on the whole-document context with a search returning
two elements, `find` yields a single one-handle context at depth 1, and the
context produced by `findAll` — reachable in one step from the root — is
well formed. -/
theorem find_single_context_invariant_witness :
    ((⟨[⟨1⟩], true, 1⟩ : Context).isSingle = true
      ∧ (⟨[⟨1⟩], true, 1⟩ : Context).elements.length = 1
      ∧ (⟨[⟨1⟩], true, 1⟩ : Context).depth = defaultContext.depth + 1)
    ∧ ContextWF (findAllCmd (fun _ => [⟨1⟩, ⟨2⟩]) defaultContext) := by
  have h := find_single_context_invariant (fun _ => [⟨1⟩, ⟨2⟩]) ⟨9⟩ defaultContext
  exact ⟨h.1 ⟨[⟨1⟩], true, 1⟩ rfl,
    h.2.2.2 _ (ReachableCtx.findAll defaultContext ReachableCtx.root)⟩

/-- C5: on a non-empty (non-default) context, `find` and `findAll` scope
the search within each element of the context and flatten the per-element
result lists in context order; `findAll` makes the flattened list a
`single = false` context, while a singular `find` takes the first flattened
result as a `single = true` context — the flag depends only on which call
was made. -/
theorem find_scoped_within_context (search : Option Element → List Element)
    (ctx : Context) (hne : ctx.elements ≠ []) :
    scopedSearch search ctx =
      (ctx.elements.map fun x => search (some x)).flatten
    ∧ findAllCmd search ctx =
      ⟨(ctx.elements.map fun x => search (some x)).flatten, false, ctx.depth + 1⟩
    ∧ (∀ e rest,
        (ctx.elements.map fun x => search (some x)).flatten = e :: rest →
        findCmd search ctx = Except.ok ⟨[e], true, ctx.depth + 1⟩) := by
  have hs : scopedSearch search ctx =
      (ctx.elements.map fun x => search (some x)).flatten := by
    match hctx : ctx.elements with
    | [] => exact absurd hctx hne
    | e :: rest => rw [scopedSearch, hctx]
  refine ⟨hs, ?_, ?_⟩
  · rw [findAllCmd, hs]
  · intro e rest hflat
    rw [findCmd, hs, hflat]

/-- Witness for C5: on a two-element context, with a search returning two
children per element, the scoped search flattens the four children in
context order, `findAll` packages them as a multiple context at depth 2,
and `find` takes the first child as a single context at depth 2. -/
theorem find_scoped_within_context_witness :
    scopedSearch (fun o => match o with
        | none => []
        | some e => [⟨e.elementId * 10⟩, ⟨e.elementId * 10 + 1⟩])
      ⟨[⟨1⟩, ⟨2⟩], false, 1⟩ = [⟨10⟩, ⟨11⟩, ⟨20⟩, ⟨21⟩]
    ∧ findAllCmd (fun o => match o with
        | none => []
        | some e => [⟨e.elementId * 10⟩, ⟨e.elementId * 10 + 1⟩])
      ⟨[⟨1⟩, ⟨2⟩], false, 1⟩ = ⟨[⟨10⟩, ⟨11⟩, ⟨20⟩, ⟨21⟩], false, 2⟩
    ∧ findCmd (fun o => match o with
        | none => []
        | some e => [⟨e.elementId * 10⟩, ⟨e.elementId * 10 + 1⟩])
      ⟨[⟨1⟩, ⟨2⟩], false, 1⟩ = Except.ok ⟨[⟨10⟩], true, 2⟩ := by
  have h := find_scoped_within_context (fun o => match o with
      | none => []
      | some e => [⟨e.elementId * 10⟩, ⟨e.elementId * 10 + 1⟩])
    ⟨[⟨1⟩, ⟨2⟩], false, 1⟩ (by simp)
  exact ⟨h.1, h.2.1, h.2.2 ⟨10⟩ [⟨11⟩, ⟨20⟩, ⟨21⟩] rfl⟩

/-- The `end` walk returns the root whole-document context whenever the
requested number of pops is at least the number of links above the node. -/
theorem endWalk_clamps_to_root (ch : Chain) :
    ∀ n d, ch.height ≤ n → endWalk ch n d = ch.rootContext := by
  induction ch with
  | root c =>
    intro n d _
    cases n with
    | zero => rfl
    | succ m => rfl
  | node p c ih =>
    intro n d hn
    cases n with
    | zero => exact absurd hn (by simp [Chain.height])
    | succ m =>
      have hm : p.height ≤ m := Nat.succ_le_succ_iff.mp hn
      rw [endWalk]
      by_cases hd : p.context.depth < d
      · rw [if_pos hd]
        exact ih m p.context.depth hm
      · rw [if_neg hd]
        exact ih (m + 1) d (Nat.le_succ_of_le hm)

/-- C6: `end n` creates a child node whose value carries nothing and whose
context is the ancestor context reached by walking up `n` context-depth
levels — chain links that did not change the context depth are skipped
without being counted; when `n` is at least the available chain height the
context clamps to the root whole-document context instead of failing; and
after two nested `findAll` filters (with an intervening non-filtering
link), `end 1` restores the context of the first `findAll` and `end 2`
restores the root context. -/
theorem end_pops_context_levels (search : Option Element → List Element) :
    (∀ (ch : Chain) (n : Nat), ch.endCmd n = Chain.node ch (ch.endCtx n))
    ∧ (∀ (p : Chain) (c : Context) (n d : Nat), ¬p.context.depth < d →
        endWalk (Chain.node p c) (n + 1) d = endWalk p (n + 1) d)
    ∧ (∀ (ch : Chain) (n : Nat), ch.height ≤ n → ch.endCtx n = ch.rootContext)
    ∧ (let c1 := findAllCmd search defaultContext
       let c2 := findAllCmd search c1
       let ch := Chain.node (Chain.node (Chain.node (Chain.root defaultContext)
         c1) c2) c2
       ch.endCtx 1 = c1 ∧ ch.endCtx 2 = defaultContext) := by
  refine ⟨fun ch n => rfl, ?_, ?_, ?_, ?_⟩
  · intro p c n d hd
    rw [endWalk, if_neg hd]
  · intro ch n hn
    exact endWalk_clamps_to_root ch n ch.context.depth hn
  · show endWalk _ 1 (findAllCmd search (findAllCmd search defaultContext)).depth
      = findAllCmd search defaultContext
    simp [endWalk, Chain.context, findAllCmd, defaultContext]
  · show endWalk _ 2 (findAllCmd search (findAllCmd search defaultContext)).depth
      = defaultContext
    simp [endWalk, Chain.context, findAllCmd, defaultContext]

/-- Witness for C6: on the concrete chain built by two `findAll` filters
over a one-element search, `end 1` restores the first filter's context,
`end 2` restores the whole-document context, and popping more levels than
exist clamps to the whole-document context. -/
theorem end_pops_context_levels_witness :
    (Chain.node (Chain.node (Chain.node (Chain.root defaultContext)
        (findAllCmd (fun _ => [⟨1⟩]) defaultContext))
        (findAllCmd (fun _ => [⟨1⟩]) (findAllCmd (fun _ => [⟨1⟩]) defaultContext)))
        (findAllCmd (fun _ => [⟨1⟩]) (findAllCmd (fun _ => [⟨1⟩]) defaultContext))).endCtx
      1 = findAllCmd (fun _ => [⟨1⟩]) defaultContext
    ∧ (Chain.node (Chain.node (Chain.node (Chain.root defaultContext)
        (findAllCmd (fun _ => [⟨1⟩]) defaultContext))
        (findAllCmd (fun _ => [⟨1⟩]) (findAllCmd (fun _ => [⟨1⟩]) defaultContext)))
        (findAllCmd (fun _ => [⟨1⟩]) (findAllCmd (fun _ => [⟨1⟩]) defaultContext))).endCtx
      2 = defaultContext
    ∧ (Chain.node (Chain.root defaultContext)
        (findAllCmd (fun _ => [⟨1⟩]) defaultContext)).endCtx 5 = defaultContext := by
  have h := end_pops_context_levels (fun _ => [⟨1⟩])
  exact ⟨h.2.2.2.1, h.2.2.2.2,
    h.2.2.1 (Chain.node (Chain.root defaultContext)
      (findAllCmd (fun _ => [⟨1⟩]) defaultContext)) 5 (by simp [Chain.height])⟩

theorem cancelList_getD {β : Type} (ps : List (Option Nat)) (i : Nat)
    (d : CNode β) :
    ∀ (l : List (CNode β)) (j0 k : Nat), k < l.length →
      (cancelList ps i j0 l).getD k d =
        if isInSubtree ps i (j0 + k)
        then { l.getD k d with state := cancelState (l.getD k d).state }
        else l.getD k d := by
  intro l
  induction l with
  | nil =>
    intro j0 k hk
    simp at hk
  | cons nd rest ih =>
    intro j0 k hk
    cases k with
    | zero => simp [cancelList]
    | succ m =>
      have hm : m < rest.length := Nat.succ_lt_succ_iff.mp hk
      simp only [cancelList, List.getD_cons_succ]
      rw [ih (j0 + 1) m hm]
      have harith : j0 + 1 + m = j0 + (m + 1) := by omega
      rw [harith]

theorem cancelList_map_parent {β : Type} (ps : List (Option Nat)) (i : Nat) :
    ∀ (l : List (CNode β)) (j0 : Nat),
      (cancelList ps i j0 l).map CNode.parent = l.map CNode.parent := by
  intro l
  induction l with
  | nil => intro j0; rfl
  | cons nd rest ih =>
    intro j0
    simp only [cancelList, List.map_cons, ih (j0 + 1)]
    congr 1
    by_cases h : isInSubtree ps i j0 = true <;> simp [h]

theorem cancelState_idem {β : Type} (s : CState β) :
    cancelState (cancelState s) = cancelState s := by
  cases s <;> rfl

theorem cancelList_idem {β : Type} (ps : List (Option Nat)) (i : Nat) :
    ∀ (l : List (CNode β)) (j0 : Nat),
      cancelList ps i j0 (cancelList ps i j0 l) = cancelList ps i j0 l := by
  intro l
  induction l with
  | nil => intro j0; rfl
  | cons nd rest ih =>
    intro j0
    simp only [cancelList]
    refine congrArg₂ (· :: ·) ?_ (ih (j0 + 1))
    by_cases h : isInSubtree ps i j0 = true
    · simp [h, cancelState_idem]
    · simp [h]

/-- C7: `cancel` on node `i` makes every not-yet-settled node in `i`'s
subtree fail with a cancellation-kind failure; every already-settled node —
including `i` itself if it settled, its ancestors, and settled siblings —
keeps its settled state; every node outside `i`'s subtree (sibling
branches) is left completely unchanged; and cancelling a second time is a
no-op. -/
theorem cancel_subtree_idempotent {β : Type} (w : List (CNode β)) (i : Nat)
    (d : CNode β) :
    (∀ j, j < w.length → (w.getD j d).state ≠ CState.pending →
      ((cancelCmd w i).getD j d).state = (w.getD j d).state)
    ∧ (∀ j, j < w.length → (w.getD j d).state = CState.pending →
      isInSubtree (w.map CNode.parent) i j = true →
      ((cancelCmd w i).getD j d).state = CState.failed FailureKind.cancellation)
    ∧ (∀ j, j < w.length → isInSubtree (w.map CNode.parent) i j = false →
      (cancelCmd w i).getD j d = w.getD j d)
    ∧ cancelCmd (cancelCmd w i) i = cancelCmd w i := by
  refine ⟨?_, ?_, ?_, ?_⟩
  · intro j hj hs
    rw [cancelCmd, cancelList_getD _ i d w 0 j hj]
    by_cases h : isInSubtree (w.map CNode.parent) i (0 + j) = true
    · rw [if_pos h]
      match hst : (w.getD j d).state with
      | CState.pending => exact absurd hst hs
      | CState.value v => simp [cancelState, hst]
      | CState.failed k => simp [cancelState, hst]
    · rw [if_neg h]
  · intro j hj hs hsub
    rw [cancelCmd, cancelList_getD _ i d w 0 j hj]
    rw [Nat.zero_add, if_pos hsub]
    show cancelState (w.getD j d).state = CState.failed FailureKind.cancellation
    rw [hs]
    rfl
  · intro j hj hsub
    rw [cancelCmd, cancelList_getD _ i d w 0 j hj]
    rw [Nat.zero_add, hsub]
    simp
  · show cancelList ((cancelCmd w i).map CNode.parent) i 0 (cancelCmd w i) =
      cancelCmd w i
    rw [cancelCmd, cancelList_map_parent]
    exact cancelList_idem (w.map CNode.parent) i w 0

/-- Witness for C7: in the world `[a, b, c, s]` where `a` settled with 1,
`b` (child of `a`) and `c` (child of `b`) are pending, and `s` (child of
`a`) settled with 7, cancelling `b` leaves `a`'s and `s`'s settled values
intact, fails `b` and `c` with a cancellation-kind failure, and cancelling
`b` again changes nothing. -/
theorem cancel_subtree_idempotent_witness :
    ((cancelCmd [⟨none, CState.value 1⟩, ⟨some 0, CState.pending⟩,
        ⟨some 1, CState.pending⟩, ⟨some 0, CState.value 7⟩] 1).getD 0
        ⟨none, CState.pending⟩).state = CState.value 1
    ∧ ((cancelCmd [⟨none, CState.value 1⟩, ⟨some 0, CState.pending⟩,
        ⟨some 1, CState.pending⟩, ⟨some 0, CState.value 7⟩] 1).getD 2
        ⟨none, CState.pending⟩).state = CState.failed FailureKind.cancellation
    ∧ (cancelCmd [⟨none, CState.value 1⟩, ⟨some 0, CState.pending⟩,
        ⟨some 1, CState.pending⟩, ⟨some 0, CState.value 7⟩] 1).getD 3
        ⟨none, CState.pending⟩ = ⟨some 0, CState.value 7⟩
    ∧ cancelCmd (cancelCmd [⟨none, CState.value (1 : Nat)⟩,
        ⟨some 0, CState.pending⟩, ⟨some 1, CState.pending⟩,
        ⟨some 0, CState.value 7⟩] 1) 1 =
      cancelCmd [⟨none, CState.value 1⟩, ⟨some 0, CState.pending⟩,
        ⟨some 1, CState.pending⟩, ⟨some 0, CState.value 7⟩] 1 := by
  have h := cancel_subtree_idempotent
    [⟨none, CState.value (1 : Nat)⟩, ⟨some 0, CState.pending⟩,
      ⟨some 1, CState.pending⟩, ⟨some 0, CState.value 7⟩] 1
    ⟨none, CState.pending⟩
  refine ⟨?_, ?_, ?_, h.2.2.2⟩
  · exact (h.1 0 (by decide) (by decide)).trans rfl
  · exact h.2.1 2 (by decide) rfl (by decide)
  · exact h.2.2.1 3 (by decide) (by decide)

/-- Skipping a prefix of poller invocations that all returned the empty
value advances the poll loop without changing its result. -/
theorem pollLoopAux_skip {α : Type} (poller : Nat → Except Failure (Option α)) :
    ∀ (m k fuel : Nat), (∀ j, j < m → poller (k + j) = Except.ok none) →
      m ≤ fuel →
      pollLoopAux poller k fuel = pollLoopAux poller (k + m) (fuel - m) := by
  intro m
  induction m with
  | zero =>
    intro k fuel _ _
    simp
  | succ p ih =>
    intro k fuel hall hm
    cases fuel with
    | zero => exact absurd hm (by omega)
    | succ f =>
      have h0 : poller k = Except.ok none := by
        have := hall 0 (by omega)
        simpa using this
      have hstep : pollLoopAux poller k (f + 1) = pollLoopAux poller (k + 1) f := by
        rw [pollLoopAux, h0]
      rw [hstep, ih (k + 1) f
        (fun j hj => by
          have := hall (j + 1) (by omega)
          rw [← this]
          congr 1
          omega)
        (by omega)]
      congr 1
      · omega
      · omega

/-- C8: when the timeout argument is omitted the session's current
asynchronous-execution timeout is used; if every invocation before `k`
returned the empty value and invocation `k` returns a non-empty value
within the invocation budget, `pollUntil` resolves with that value; if
invocation `k` raises an error it fails immediately with that error and the
poller is never consulted past `k` (any poller agreeing up to `k` gives the
same failure); if every invocation within the budget returns the empty
value it fails with the timeout-kind failure. -/
theorem pollUntil_contract {α : Type} (poller : Nat → Except Failure (Option α))
    (timeout pollInterval : Option Nat) (s : Nat) (k : Nat) :
    resolveTimeout none s = s
    ∧ (∀ v, (∀ j, j < k → poller j = Except.ok none) →
        poller k = Except.ok (some v) →
        k < numPolls (resolveTimeout timeout s) (resolveInterval pollInterval) →
        pollUntil poller timeout pollInterval s = Except.ok v)
    ∧ (∀ e, (∀ j, j < k → poller j = Except.ok none) →
        poller k = Except.error e →
        k < numPolls (resolveTimeout timeout s) (resolveInterval pollInterval) →
        pollUntil poller timeout pollInterval s = Except.error e
        ∧ (∀ q : Nat → Except Failure (Option α),
            (∀ j, j ≤ k → q j = poller j) →
            pollUntil q timeout pollInterval s = Except.error e))
    ∧ ((∀ j, j < numPolls (resolveTimeout timeout s) (resolveInterval pollInterval) →
          poller j = Except.ok none) →
        pollUntil poller timeout pollInterval s = Except.error timeoutFailure
        ∧ timeoutFailure.kind = FailureKind.timeout) := by
  have hrun : ∀ (q : Nat → Except Failure (Option α)),
      (∀ j, j < k → q j = Except.ok none) →
      k < numPolls (resolveTimeout timeout s) (resolveInterval pollInterval) →
      ∃ f, numPolls (resolveTimeout timeout s) (resolveInterval pollInterval) - k
          = f + 1
        ∧ pollUntil q timeout pollInterval s = pollLoopAux q k (f + 1) := by
    intro q hpre hk
    obtain ⟨f, hf⟩ : ∃ f,
        numPolls (resolveTimeout timeout s) (resolveInterval pollInterval) - k
          = f + 1 :=
      ⟨numPolls (resolveTimeout timeout s) (resolveInterval pollInterval) - k - 1,
        by omega⟩
    refine ⟨f, hf, ?_⟩
    rw [pollUntil, pollLoopAux_skip q k 0 _ (fun j hj => by simpa using hpre j hj)
      (by omega), Nat.zero_add, hf]
  refine ⟨rfl, ?_, ?_, ?_⟩
  · intro v hpre hk hbud
    obtain ⟨f, _, hrw⟩ := hrun poller hpre hbud
    rw [hrw, pollLoopAux, hk]
  · intro e hpre hk hbud
    have hq : ∀ q : Nat → Except Failure (Option α), (∀ j, j ≤ k → q j = poller j) →
        pollUntil q timeout pollInterval s = Except.error e := by
      intro q hagree
      obtain ⟨f, _, hrw⟩ := hrun q
        (fun j hj => (hagree j (by omega)).trans (hpre j hj)) hbud
      rw [hrw, pollLoopAux, (hagree k (by omega)).trans hk]
    exact ⟨hq poller fun j _ => rfl, hq⟩
  · intro hall
    refine ⟨?_, rfl⟩
    rw [pollUntil, pollLoopAux_skip poller
      (numPolls (resolveTimeout timeout s) (resolveInterval pollInterval)) 0 _
      (fun j hj => by simpa using hall j hj) (by omega), Nat.sub_self]
    rfl

/-- Witness for C8: with a 1000 ms timeout and 10 ms interval, a poller
returning the empty value three times and then "done" resolves to "done";
a poller that raises on its first invocation fails immediately with that
error; a poller that never returns a value within a 50 ms timeout at a
10 ms interval fails with the timeout-kind failure. -/
theorem pollUntil_contract_witness :
    pollUntil (fun j => if j < 3 then Except.ok none
        else Except.ok (some "done")) (some 1000) (some 10) 0 =
      Except.ok "done"
    ∧ pollUntil (fun j => if j = 0 then Except.error noSuchElementFailure
        else Except.ok (none : Option String)) (some 1000) (some 10) 0 =
      Except.error noSuchElementFailure
    ∧ pollUntil (fun _ => Except.ok (none : Option String)) (some 50)
        (some 10) 0 =
      Except.error timeoutFailure := by
  refine ⟨?_, ?_, ?_⟩
  · exact (pollUntil_contract (fun j => if j < 3 then Except.ok none
        else Except.ok (some "done")) (some 1000) (some 10) 0 3).2.1 "done"
      (fun j hj => by interval_cases j <;> rfl) rfl (by decide)
  · exact ((pollUntil_contract (fun j => if j = 0 then
          Except.error noSuchElementFailure
        else Except.ok (none : Option String)) (some 1000) (some 10) 0 0).2.2.1
      noSuchElementFailure (fun j hj => absurd hj (by omega)) rfl (by decide)).1
  · exact ((pollUntil_contract (fun _ => Except.ok (none : Option String))
      (some 50) (some 10) 0 0).2.2.2 (fun j _ => rfl)).1

/-- C10: when the `pollInterval` argument is not supplied it defaults to
the constant 67 ms, so successive poller invocations are spaced exactly
67 ms apart. -/
theorem default_poll_interval_67 :
    resolveInterval none = 67
    ∧ ∀ k, pollStartTime (resolveInterval none) (k + 1)
        - pollStartTime (resolveInterval none) k = 67 := by
  refine ⟨rfl, fun k => ?_⟩
  simp only [pollStartTime, resolveInterval, Option.getD_none]
  omega

end Leadfoot
